import Mathlib

/-
  Verification of the module-loading / symbol-binding layer of the Hermes VM
  (lib/VM/RuntimeModule.cpp), via a shallow embedding in Lean 4.

  RuntimeModule pointers, CodeBlock pointers and HiddenClass pointers are
  modelled by structures carrying a numeric identity; vectors are Lean lists;
  the llvm DenseMap objectLiteralHiddenClasses_ is an association list; GC
  "accept" calls made by the marking functions are modelled as the list of
  accepted slots, in call order.
-/

namespace HermesRM

/-- SymbolID: process-wide id for an interned string. The header defining the
concrete sentinel is not under src/; the spec states that an invalid sentinel
exists, modelled here as the all-ones 32-bit value, with validity the
first-class predicate isValid. -/
structure SymbolID where
  raw : Nat
deriving DecidableEq, Repr

/-- The invalid sentinel, SymbolID::empty() in the source. -/
def SymbolID.emptySentinel : SymbolID := ⟨2 ^ 32 - 1⟩

/-- Validity predicate on SymbolID (isValid in the source). -/
def SymbolID.isValid (s : SymbolID) : Bool := s.raw != SymbolID.emptySentinel.raw

/-- SymbolID::unsafeCreate: build a SymbolID directly from a raw 32-bit value
(used by mapPredefined for predefined ids). -/
def SymbolID.createFromRaw (raw : Nat) : SymbolID := ⟨raw⟩

/-- HiddenClass: object-shape value, external to this subsystem; modelled by
its pointer identity plus the one field the cache reads, getNumProperties. -/
structure HiddenClass where
  hcId : Nat
  numProperties : Nat
deriving DecidableEq, Repr

/-- CodeBlock (FunctionRecord): modelled by its owning RuntimeModule id
(getRuntimeModule), a pointer identity, and the hidden classes its
markCachedHiddenClasses call would accept. -/
structure CodeBlock where
  owner : Nat
  blockId : Nat
  cachedHiddenClasses : List HiddenClass
deriving DecidableEq, Repr

/-- StringTableEntry of the bytecode provider: encoding tag, byte offset into
string storage, and length (in code units). -/
structure StringTableEntry where
  isUTF16 : Bool
  offset : Nat
  length : Nat
deriving DecidableEq, Repr

/-- StringKind: the tag of a run in the provider's run-length-encoded string
kind table. -/
inductive StringKind where
  | stringKind
  | identifierKind
  | predefinedKind
deriving DecidableEq, Repr

/-- A decoded string reference (ASCIIRef / UTF16Ref), carrying the code units
read out of the provider's string storage. -/
inductive StrRef where
  | ascii (bytes : List Nat)
  | utf16 (units : List Nat)
deriving DecidableEq, Repr

/-- ExecutionStatus of a fallible VM call. -/
inductive ExecutionStatus where
  | exception
  | returned
deriving DecidableEq, Repr

/-- The mutable per-module state of a RuntimeModule that the claims are
about: the string-id map, the function map, the literal hidden-class cache
and the template map, plus the module's own pointer identity and the
persistent flag. -/
structure RuntimeModule where
  selfId : Nat
  persistent : Bool
  stringIDMap : List SymbolID
  functionMap : List (Option CodeBlock)
  objectLiteralHiddenClasses : List (Nat × Option HiddenClass)
  templateMap : List (Nat × HiddenClass)
deriving DecidableEq, Repr

/-! ### Literal hidden-class cache (findCachedLiteralHiddenClass / tryCacheLiteralHiddenClass) -/

/-- Modelled from the spec: canGenerateLiteralHiddenClassCacheKey is declared
in RuntimeModule.h, which is not under src/. Per the spec, a cache key is
constructible exactly when the pair fits the small encoding the cache
supports: the buffer index in the upper 24 bits, the literal count in the
low 8 bits. -/
def canGenerateLiteralHiddenClassCacheKey (keyBufferIndex numLiterals : Nat) : Bool :=
  keyBufferIndex < 2 ^ 24 && numLiterals < 2 ^ 8

/-- Modelled from the spec: getLiteralHiddenClassCacheHashKey is declared in
RuntimeModule.h, which is not under src/; it packs the in-range pair into one
word: bufferIndex * 256 + numLiterals. -/
def getLiteralHiddenClassCacheHashKey (keyBufferIndex numLiterals : Nat) : Nat :=
  keyBufferIndex * 256 + numLiterals

/-- DenseMap-style assignment on the association list: replace the value of
the first matching key, or append the pair when the key is absent. -/
def assocSet (l : List (Nat × Option HiddenClass)) (k : Nat) (v : Option HiddenClass) :
    List (Nat × Option HiddenClass) :=
  match l with
  | [] => [(k, v)]
  | (k', v') :: rest => if k' = k then (k, v) :: rest else (k', v') :: assocSet rest k v

/-- DenseMap find on the association list. -/
def assocFind (l : List (Nat × Option HiddenClass)) (k : Nat) : Option (Option HiddenClass) :=
  match l with
  | [] => none
  | (k', v') :: rest => if k' = k then some v' else assocFind rest k

/-- RuntimeModule::findCachedLiteralHiddenClass: when the key is
constructible, look the packed key up in objectLiteralHiddenClasses_ and
return the class when the entry exists and is non-null; otherwise report
a miss. -/
def findCachedLiteralHiddenClass (m : RuntimeModule) (keyBufferIndex numLiterals : Nat) :
    Option HiddenClass :=
  if canGenerateLiteralHiddenClassCacheKey keyBufferIndex numLiterals then
    match assocFind m.objectLiteralHiddenClasses
        (getLiteralHiddenClassCacheHashKey keyBufferIndex numLiterals) with
    | some (some h) => some h
    | _ => none
  else none

/-- RuntimeModule::tryCacheLiteralHiddenClass: the literal count is the
class's property count; when the key is constructible, store the class under
the packed key, otherwise do nothing. -/
def tryCacheLiteralHiddenClass (m : RuntimeModule) (keyBufferIndex : Nat) (clazz : HiddenClass) :
    RuntimeModule :=
  let numLiterals := clazz.numProperties
  if canGenerateLiteralHiddenClassCacheKey keyBufferIndex numLiterals then
    let cache := assocSet m.objectLiteralHiddenClasses
      (getLiteralHiddenClassCacheHashKey keyBufferIndex numLiterals) (some clazz)
    { m with objectLiteralHiddenClasses := cache }
  else m

/-! ### GC root participation (markRoots / markWeakRoots) -/

/-- RuntimeModule::markRoots, pointer part: the template map values are
accepted (acceptPtr) on every pass, before the markLongLived check. -/
def markRootsAcceptedPtrs (m : RuntimeModule) : List HiddenClass :=
  m.templateMap.map Prod.snd

/-- RuntimeModule::markRoots, symbol part: only when markLongLived is set,
each valid symbol of stringIDMap_ is accepted; invalid sentinels are
skipped. -/
def markRootsAcceptedSymbols (m : RuntimeModule) (markLongLived : Bool) : List SymbolID :=
  if markLongLived then m.stringIDMap.filter (fun s => s.isValid) else []

/-- RuntimeModule::markWeakRoots: every non-null self-owned code block gets
markCachedHiddenClasses, then every non-null literal hidden-class cache slot
is accepted weakly. The result is the list of hidden classes handed to the
weak acceptor, in call order. -/
def markWeakRootsAccepted (m : RuntimeModule) : List HiddenClass :=
  ((m.functionMap.filterMap id).filter (fun b => b.owner = m.selfId)).flatMap
      (fun b => b.cachedHiddenClasses)
    ++ m.objectLiteralHiddenClasses.filterMap Prod.snd

/-! ### Teardown (prepareForRuntimeShutdown and the destructor) -/

/-- RuntimeModule::prepareForRuntimeShutdown: null every function-map slot
holding a block whose owning module is not this one. -/
def prepareForRuntimeShutdown (self : Nat) (fm : List (Option CodeBlock)) :
    List (Option CodeBlock) :=
  fm.map (fun s =>
    match s with
    | some b => if b.owner ≠ self then none else some b
    | none => none)

/-- The destructor's deletion loop: delete every non-null block whose owning
module is this one. The result is the list of blocks deleted, in slot
order. -/
def destructorDeletes (self : Nat) (fm : List (Option CodeBlock)) : List CodeBlock :=
  fm.filterMap (fun s =>
    match s with
    | some b => if b.owner = self then some b else none
    | none => none)

/-! ### Bytecode provider and the host-runtime environment -/

/-- The slice of the BCProvider interface this file consumes: string count,
run-length string-kind table, identifier translations, string table and raw
storage, function count, and the lazy provider's global function index. -/
structure BCProvider where
  stringCount : Nat
  kinds : List (StringKind × Nat)
  translations : List Nat
  stringTable : List StringTableEntry
  stringStorage : List Nat
  functionCount : Nat
  globalFunctionIndex : Nat
deriving DecidableEq, Repr

/-- StringView returned by IdentifierTable::getStringView: its encoding tag
and its code units. -/
structure StringView where
  viewIsASCII : Bool
  chars : List Nat
deriving DecidableEq, Repr

/-- The identifier table and hashing environment (external collaborators,
owned by the host runtime). getSymbolHandle may allocate and so may fail
with allocation exhaustion, modelled as the error case; lazy registration
does not allocate and cannot fail. -/
structure RuntimeEnv where
  registerLazyIdentifier : StrRef → Nat → SymbolID
  getSymbolHandle : StrRef → Nat → Except Unit SymbolID
  hashString : StrRef → Nat
  getStringView : SymbolID → StringView

/-- Decode the UTF16 code units of a string-table entry out of the byte
storage: char16 units read little-endian at the byte offset. -/
def utf16Units (storage : List Nat) (off len : Nat) : List Nat :=
  (List.range len).map (fun i => storage.getD (off + 2 * i) 0 + 256 * storage.getD (off + 2 * i + 1) 0)

/-- Decode a string-table entry into the StrRef the interning primitives
receive (the two branches of createSymbolFromStringIDMayAllocate). -/
def decodeEntry (storage : List Nat) (e : StringTableEntry) : StrRef :=
  if e.isUTF16 then .utf16 (utf16Units storage e.offset e.length)
  else .ascii ((List.range e.length).map (fun i => storage.getD (e.offset + i) 0))

/-! ### Interning primitives -/

/-- RuntimeModule::mapStringMayAllocate (3-argument template): persistent
modules register a lazy identifier (non-allocating, cannot fail); otherwise
the symbol is resolved through getSymbolHandle, whose allocation failure is
consumed by Runtime::ignoreAllocationFailure. ignoreAllocationFailure is
declared outside src/ and does not return the Exception signal to its
caller (the surrounding function returns a plain SymbolID); the failure is
modelled as the error case, a fatal outcome distinct from Exception
propagation. On success the symbol is stored at stringIDMap_[stringID]. -/
def mapStringMayAllocate (env : RuntimeEnv) (persistent : Bool) (str : StrRef)
    (stringID : Nat) (hash : Nat) (map : List SymbolID) :
    Except Unit (SymbolID × List SymbolID) :=
  if persistent then
    let id := env.registerLazyIdentifier str hash
    .ok (id, map.set stringID id)
  else
    match env.getSymbolHandle str hash with
    | .error _ => .error ()
    | .ok id => .ok (id, map.set stringID id)

/-- RuntimeModule::createSymbolFromStringIDMayAllocate: decode the entry
(ASCII or UTF16), use the precomputed hash when provided, else hash the
content, and intern through mapStringMayAllocate. -/
def createSymbolFromStringIDMayAllocate (env : RuntimeEnv) (persistent : Bool)
    (storage : List Nat) (stringID : Nat) (entry : StringTableEntry)
    (mhash : Option Nat) (map : List SymbolID) :
    Except Unit (SymbolID × List SymbolID) :=
  let str := decodeEntry storage entry
  let hash := match mhash with
    | some h => h
    | none => env.hashString str
  mapStringMayAllocate env persistent str stringID hash map

/-- RuntimeModule::mapPredefined: build the well-known SymbolID directly from
the raw translation value and store it, touching no symbol table. -/
def mapPredefined (stringID rawSymbolID : Nat) (map : List SymbolID) : List SymbolID :=
  map.set stringID (SymbolID.createFromRaw rawSymbolID)

/-- The string-table entry of index i (the walk indexes the provider's
table; the default stands for the out-of-bounds read the source asserts
never happens). -/
def entryAt (p : BCProvider) (i : Nat) : StringTableEntry :=
  p.stringTable.getD i ⟨false, 0, 0⟩

/-! ### The string-kind walk of importStringIDMapMayAllocate -/

/-- One identifier run of the walk: count entries starting at strID/trnID,
each interned with the precomputed hash translations[trnID]. The returned
log records the stringIDs for which the symbol table was consulted. -/
def identifierRun (env : RuntimeEnv) (persistent : Bool) (p : BCProvider) :
    Nat → Nat → Nat → List SymbolID → List Nat → Except Unit (List SymbolID × List Nat)
  | 0, _, _, map, log => .ok (map, log)
  | n + 1, strID, trnID, map, log =>
    match createSymbolFromStringIDMayAllocate env persistent p.stringStorage strID
        (entryAt p strID) (some (p.translations.getD trnID 0)) map with
    | .error _ => .error ()
    | .ok (_, map') => identifierRun env persistent p n (strID + 1) (trnID + 1) map' (log ++ [strID])

/-- One predefined run of the walk: count entries mapped directly via
mapPredefined, with no symbol-table consultation (the log is untouched). -/
def predefinedRun (p : BCProvider) :
    Nat → Nat → Nat → List SymbolID → List SymbolID
  | 0, _, _, map => map
  | n + 1, strID, trnID, map =>
    predefinedRun p n (strID + 1) (trnID + 1) (mapPredefined strID (p.translations.getD trnID 0) map)

/-- The loop over the run-length-encoded kind table in
importStringIDMapMayAllocate: String runs only advance strID, Identifier
runs intern each entry, Predefined runs map each entry directly. -/
def walkKinds (env : RuntimeEnv) (persistent : Bool) (p : BCProvider) :
    List (StringKind × Nat) → Nat → Nat → List SymbolID → List Nat →
    Except Unit (List SymbolID × List Nat)
  | [], _, _, map, log => .ok (map, log)
  | (k, c) :: rest, strID, trnID, map, log =>
    match k with
    | .stringKind => walkKinds env persistent p rest (strID + c) trnID map log
    | .identifierKind =>
      match identifierRun env persistent p c strID trnID map log with
      | .error _ => .error ()
      | .ok (map', log') => walkKinds env persistent p rest (strID + c) (trnID + c) map' log'
    | .predefinedKind =>
      walkKinds env persistent p rest (strID + c) (trnID + c)
        (predefinedRun p c strID trnID map) log

/-- RuntimeModule::importStringIDMapMayAllocate: prefill the map with the
empty sentinel, walk the kind table, and when the string table is empty
synthesize one empty-string entry, interned at index 0 (the two-argument
mapStringMayAllocate overload routing to that index is declared in
RuntimeModule.h, not under src/; modelled from the spec: the synthesized
entry is interned at index 0). Returns the final stringIDMap_ and the log
of symbol-table consultations. -/
def importStringIDMapMayAllocate (env : RuntimeEnv) (persistent : Bool) (p : BCProvider) :
    Except Unit (List SymbolID × List Nat) :=
  let map0 := List.replicate p.stringCount SymbolID.emptySentinel
  match walkKinds env persistent p p.kinds 0 0 map0 [] with
  | .error _ => .error ()
  | .ok (map, log) =>
    if p.stringCount = 0 then
      let map1 := map ++ [SymbolID.emptySentinel]
      let s : StrRef := .ascii []
      match mapStringMayAllocate env persistent s 0 (env.hashString s) map1 with
      | .error _ => .error ()
      | .ok (_, map2) => .ok (map2, log ++ [0])
    else .ok (map, log)

/-! ### Initialization and creation -/

/-- RuntimeModule::initializeFunctionMap: grow the function map to the
provider's function count, new slots empty. -/
def initializeFunctionMap (p : BCProvider) (fm : List (Option CodeBlock)) :
    List (Option CodeBlock) :=
  fm ++ List.replicate (p.functionCount - fm.length) none

/-- RuntimeModule::initializeWithoutCJSModulesMayAllocate: import the string
id map, then build the function map. -/
def initializeWithoutCJSModulesMayAllocate (env : RuntimeEnv) (persistent : Bool)
    (p : BCProvider) (fm : List (Option CodeBlock)) :
    Except Unit (List SymbolID × List (Option CodeBlock)) :=
  match importStringIDMapMayAllocate env persistent p with
  | .error _ => .error ()
  | .ok (map, _) => .ok (map, initializeFunctionMap p fm)

/-- RuntimeModule::initializeMayAllocate: initialize without CJS modules,
then import the CJS module table (Domain::importCJSModuleTable is external;
its outcome is the cjs parameter). An Exception from the import is
propagated. -/
def initializeMayAllocate (env : RuntimeEnv) (persistent : Bool) (p : BCProvider)
    (fm : List (Option CodeBlock)) (cjs : ExecutionStatus) :
    Except Unit (ExecutionStatus × List SymbolID × List (Option CodeBlock)) :=
  match initializeWithoutCJSModulesMayAllocate env persistent p fm with
  | .error _ => .error ()
  | .ok (map, fm') =>
    match cjs with
    | .exception => .ok (.exception, map, fm')
    | .returned => .ok (.returned, map, fm')

/-- The host runtime's registration state: the ids of the RuntimeModules
registered through addRuntimeModule. -/
structure RuntimeState where
  modules : List Nat
deriving DecidableEq, Repr

/-- The domain's registration state (Domain::addRuntimeModule). -/
structure DomainState where
  modules : List Nat
deriving DecidableEq, Repr

/-- Outcome of RuntimeModule::create as seen by its caller: a usable binding
(with its maps), the Exception signal, or the fatal non-returning outcome of
ignoreAllocationFailure on allocation exhaustion during interning. -/
inductive CreateOutcome where
  | ok (stringIDMap : List SymbolID) (functionMap : List (Option CodeBlock))
  | exception
  | fatal
deriving DecidableEq, Repr

/-- RuntimeModule::create: the constructor registers the module with the
runtime and the domain unconditionally; with a provider, initialization
runs and an Exception from the CJS import aborts create with the Exception
signal, with no deregistration and no deletion of the new module. -/
def create (rt : RuntimeState) (dom : DomainState) (mid : Nat) (env : RuntimeEnv)
    (persistent : Bool) (bytecode : Option BCProvider) (cjs : ExecutionStatus) :
    RuntimeState × DomainState × CreateOutcome :=
  let rt' : RuntimeState := ⟨rt.modules ++ [mid]⟩
  let dom' : DomainState := ⟨dom.modules ++ [mid]⟩
  match bytecode with
  | none => (rt', dom', .ok [] [])
  | some p =>
    match initializeMayAllocate env persistent p [] cjs with
    | .error _ => (rt', dom', .fatal)
    | .ok (.exception, _, _) => (rt', dom', .exception)
    | .ok (.returned, map, fm) => (rt', dom', .ok map fm)

/-! ### Lazy modules -/

/-- RuntimeModule::initializeLazyMayAllocate: reinitialize from the freshly
compiled provider (no CJS table), then move the single code block from the
temporary slot 0 to the provider's global function index, nulling slot 0,
unless that index is already 0. -/
def initializeLazyMayAllocate (env : RuntimeEnv) (persistent : Bool) (p : BCProvider)
    (fm : List (Option CodeBlock)) :
    Except Unit (List SymbolID × List (Option CodeBlock)) :=
  match initializeWithoutCJSModulesMayAllocate env persistent p fm with
  | .error _ => .error ()
  | .ok (map, fm1) =>
    if p.globalFunctionIndex = 0 then .ok (map, fm1)
    else .ok (map, (fm1.set p.globalFunctionIndex (fm1.getD 0 none)).set 0 none)

/-- RuntimeModule::getLazyNameString: fetch the string view of the lazy
function's interned name; produce the narrow string and report true exactly
when the view is ASCII, else report false with no conversion attempted. -/
def getLazyNameString (env : RuntimeEnv) (m : RuntimeModule) : Bool × Option (List Nat) :=
  let strView := env.getStringView (m.stringIDMap.getD 0 SymbolID.emptySentinel)
  if strView.viewIsASCII then (true, some strView.chars) else (false, none)

/-! ### Classification helpers for the kind walk -/

/-- Total entry count of a run-length-encoded kind table (the source assert:
the walk ends with strID equal to the string count). -/
def totalCount (kinds : List (StringKind × Nat)) : Nat :=
  match kinds with
  | [] => 0
  | (_, c) :: rest => c + totalCount rest

/-- The kind of string-table entry i under the run-length encoding. -/
def kindAt (kinds : List (StringKind × Nat)) (i : Nat) : StringKind :=
  match kinds with
  | [] => .stringKind
  | (k, c) :: rest => if i < c then k else kindAt rest (i - c)

/-- The translation index of string-table entry i: the number of entries of
non-String kind before it (the walk advances trnID only on Identifier and
Predefined entries). -/
def trnIndex (kinds : List (StringKind × Nat)) (i : Nat) : Nat :=
  match kinds with
  | [] => 0
  | (k, c) :: rest =>
    if i < c then (if k = .stringKind then 0 else i)
    else (if k = .stringKind then 0 else c) + trnIndex rest (i - c)

/-- The string ids of the identifier-run entries, in walk order, starting
the numbering at strID: exactly the entries for which the walk consults the
identifier table. -/
def identifierPositions (kinds : List (StringKind × Nat)) (strID : Nat) : List Nat :=
  match kinds with
  | [] => []
  | (k, c) :: rest =>
    (if k = StringKind.identifierKind then (List.range c).map (fun o => strID + o) else [])
      ++ identifierPositions rest (strID + c)

/-- The symbol an in-range identifier entry resolves to when interning
succeeds: lazy registration for persistent modules, the symbol handle
otherwise. -/
def internedValue (env : RuntimeEnv) (persistent : Bool) (str : StrRef) (hash : Nat) : SymbolID :=
  if persistent then env.registerLazyIdentifier str hash
  else ((env.getSymbolHandle str hash).toOption).getD SymbolID.emptySentinel

/-- The symbol the walk is specified to leave at index i, given the prefill
value: String entries keep the prefill, Identifier entries intern through
the symbol table with the precomputed hash translations[trnIndex i],
Predefined entries take the raw translation value directly. -/
def expectedSymbol (env : RuntimeEnv) (persistent : Bool) (p : BCProvider) (i : Nat)
    (init : SymbolID) : SymbolID :=
  match kindAt p.kinds i with
  | .stringKind => init
  | .identifierKind =>
    internedValue env persistent (decodeEntry p.stringStorage (entryAt p i))
      (p.translations.getD (trnIndex p.kinds i) 0)
  | .predefinedKind => SymbolID.createFromRaw (p.translations.getD (trnIndex p.kinds i) 0)

/-! ### Concrete instances used by the closed-form theorems -/

/-- An environment whose identifier table always succeeds. -/
def exEnvOk : RuntimeEnv :=
  ⟨fun _ _ => ⟨3⟩, fun _ _ => .ok ⟨5⟩, fun _ => 7, fun _ => ⟨true, [97]⟩⟩

/-- An environment in allocation exhaustion: every allocating symbol
resolution fails. -/
def exEnvFail : RuntimeEnv :=
  ⟨fun _ _ => ⟨3⟩, fun _ _ => .error (), fun _ => 7, fun _ => ⟨false, [300]⟩⟩

/-- A module whose literal hidden-class cache holds one entry and whose
template map is empty. -/
def exCacheModule : RuntimeModule := ⟨0, false, [], [], [(7, some ⟨42, 3⟩)], []⟩

/-- A lazy child module: one function-map slot, one interned name symbol. -/
def exLazyModule : RuntimeModule := ⟨0, false, [⟨5⟩], [some ⟨0, 1, []⟩], [], []⟩

/-- A code block owned by module 0. -/
def cbSelf : CodeBlock := ⟨0, 1, []⟩

/-- A code block owned by module 1 (borrowed when seen from module 0). -/
def cbOther : CodeBlock := ⟨1, 2, []⟩

/-- A function map with one self-owned, one borrowed and one empty slot as
seen from module 0. -/
def exFM : List (Option CodeBlock) := [some cbSelf, some cbOther, none]

/-- A provider with a single identifier entry. -/
def pIdent : BCProvider := ⟨1, [(.identifierKind, 1)], [11], [⟨false, 0, 0⟩], [], 0, 0⟩

/-- A provider as produced for a freshly compiled lazy function: one plain
string entry, three functions, global function index 2. -/
def pLazy : BCProvider := ⟨1, [(.stringKind, 1)], [], [⟨false, 0, 0⟩], [], 3, 2⟩

/-- A provider with an empty string table. -/
def pEmptyTable : BCProvider := ⟨0, [], [], [], [], 0, 0⟩

/-- A provider with one identifier, one predefined and one plain string
entry. -/
def pMix : BCProvider :=
  ⟨3, [(.identifierKind, 1), (.predefinedKind, 1), (.stringKind, 1)], [11, 77],
    [⟨false, 0, 0⟩, ⟨false, 0, 0⟩, ⟨false, 0, 0⟩], [], 0, 0⟩

/-- The single code block of a lazy child module in the retarget scenario. -/
def cbEx : CodeBlock := ⟨5, 9, []⟩

/-! ### Helper lemmas on lists -/

theorem getD_set_self {α : Type} (l : List α) (i : Nat) (v d : α) (h : i < l.length) :
    (l.set i v).getD i d = v := by
  induction l generalizing i with
  | nil => simp at h
  | cons a t ih =>
    cases i with
    | zero => rfl
    | succ n => simpa using ih n (by simpa using h)

theorem getD_set_of_ne {α : Type} (l : List α) (i j : Nat) (v d : α) (h : i ≠ j) :
    (l.set i v).getD j d = l.getD j d := by
  induction l generalizing i j with
  | nil => rfl
  | cons a t ih =>
    cases i with
    | zero =>
      cases j with
      | zero => exact absurd rfl h
      | succ n => rfl
    | succ n =>
      cases j with
      | zero => rfl
      | succ k => simpa using ih n k (by omega)

theorem getD_replicate {α : Type} (n i : Nat) (v d : α) (h : i < n) :
    (List.replicate n v).getD i d = v := by
  induction n generalizing i with
  | zero => omega
  | succ n ih =>
    cases i with
    | zero => rfl
    | succ k =>
      rw [List.replicate_succ]
      simpa using ih k (by omega)

theorem length_set_eq {α : Type} (l : List α) (i : Nat) (v : α) :
    (l.set i v).length = l.length := by
  simp

/-! ### Literal hidden-class cache lemmas and claim C7 -/

theorem assocFind_assocSet (l : List (Nat × Option HiddenClass)) (k : Nat)
    (v : Option HiddenClass) : assocFind (assocSet l k v) k = some v := by
  induction l with
  | nil => simp [assocSet, assocFind]
  | cons e rest ih =>
    obtain ⟨k', v'⟩ := e
    by_cases hk : k' = k
    · simp [assocSet, assocFind, hk]
    · simp [assocSet, assocFind, hk, ih]

/-- Claim C7: for a key within the cacheable encoding range, tryCache
followed by find with the same buffer index and literal count returns the
cached shape; for a key outside the range, tryCache leaves the module
unchanged and find reports a miss on every module. -/
theorem c7_literal_cache_roundtrip (m : RuntimeModule) (bi lc : Nat) (clazz : HiddenClass)
    (hlc : clazz.numProperties = lc) :
    (canGenerateLiteralHiddenClassCacheKey bi lc = true →
      findCachedLiteralHiddenClass (tryCacheLiteralHiddenClass m bi clazz) bi lc = some clazz)
    ∧ (canGenerateLiteralHiddenClassCacheKey bi lc = false →
      tryCacheLiteralHiddenClass m bi clazz = m
        ∧ ∀ m' : RuntimeModule, findCachedLiteralHiddenClass m' bi lc = none) := by
  subst hlc
  constructor
  · intro hcan
    simp [tryCacheLiteralHiddenClass, findCachedLiteralHiddenClass, hcan, assocFind_assocSet]
  · intro hcan
    refine ⟨by simp [tryCacheLiteralHiddenClass, hcan], fun m' => ?_⟩
    simp [findCachedLiteralHiddenClass, hcan]

/-- Witness for C7 at a concrete in-range key and shape. -/
theorem c7_witness :
    findCachedLiteralHiddenClass (tryCacheLiteralHiddenClass exCacheModule 1 ⟨9, 2⟩) 1 2
      = some ⟨9, 2⟩ :=
  (c7_literal_cache_roundtrip exCacheModule 1 2 ⟨9, 2⟩ rfl).1 (by decide)

/-! ### Teardown lemmas and claim C4 -/

theorem destructorDeletes_prepare (self : Nat) (fm : List (Option CodeBlock)) :
    destructorDeletes self (prepareForRuntimeShutdown self fm) = destructorDeletes self fm := by
  induction fm with
  | nil => rfl
  | cons s t ih =>
    cases s with
    | none => simpa [prepareForRuntimeShutdown, destructorDeletes] using ih
    | some b =>
      by_cases hb : b.owner = self
      · simpa [prepareForRuntimeShutdown, destructorDeletes, hb] using ih
      · simpa [prepareForRuntimeShutdown, destructorDeletes, hb] using ih

theorem destructorDeletes_eq_filter (self : Nat) (fm : List (Option CodeBlock)) :
    destructorDeletes self fm = (fm.filterMap id).filter (fun b => b.owner = self) := by
  induction fm with
  | nil => rfl
  | cons s t ih =>
    cases s with
    | none => simpa [destructorDeletes] using ih
    | some b =>
      by_cases hb : b.owner = self
      · simpa [destructorDeletes, hb] using ih
      · simpa [destructorDeletes, hb] using ih

theorem mem_destructorDeletes (self : Nat) (b : CodeBlock) (fm : List (Option CodeBlock)) :
    b ∈ destructorDeletes self fm ↔ some b ∈ fm ∧ b.owner = self := by
  rw [destructorDeletes_eq_filter]
  simp [List.mem_filter, List.mem_filterMap]

/-- Claim C4: prepareForRuntimeShutdown nulls exactly the slots holding a
block owned by another module and leaves self-owned and empty slots
unchanged; the destructor then deletes exactly the non-null self-owned
blocks (the same set before or after the scrub), never a borrowed one, and,
when the non-null entries are pairwise distinct, each exactly once. -/
theorem c4_shutdown_scrub_and_destruction (self : Nat) (fm : List (Option CodeBlock))
    (hnodup : (fm.filterMap id).Nodup) :
    (∀ (i : Nat) (b : CodeBlock), fm[i]? = some (some b) → b.owner ≠ self →
      (prepareForRuntimeShutdown self fm)[i]? = some none)
    ∧ (∀ (i : Nat) (b : CodeBlock), fm[i]? = some (some b) → b.owner = self →
      (prepareForRuntimeShutdown self fm)[i]? = some (some b))
    ∧ (∀ i : Nat, fm[i]? = some none → (prepareForRuntimeShutdown self fm)[i]? = some none)
    ∧ destructorDeletes self (prepareForRuntimeShutdown self fm) = destructorDeletes self fm
    ∧ (∀ b ∈ destructorDeletes self fm, b.owner = self)
    ∧ (∀ b : CodeBlock, b.owner ≠ self → b ∉ destructorDeletes self fm)
    ∧ (∀ b ∈ destructorDeletes self fm, (destructorDeletes self fm).count b = 1) := by
  refine ⟨?_, ?_, ?_, destructorDeletes_prepare self fm, ?_, ?_, ?_⟩
  · intro i b hi hb
    simp [prepareForRuntimeShutdown, List.getElem?_map, hi, hb]
  · intro i b hi hb
    simp [prepareForRuntimeShutdown, List.getElem?_map, hi, hb]
  · intro i hi
    simp [prepareForRuntimeShutdown, List.getElem?_map, hi]
  · intro b hb
    exact ((mem_destructorDeletes self b fm).mp hb).2
  · intro b hb hmem
    exact hb ((mem_destructorDeletes self b fm).mp hmem).2
  · intro b hb
    rw [destructorDeletes_eq_filter] at hb ⊢
    exact List.count_eq_one_of_mem (hnodup.filter _) hb

/-- Witness for C4 at a concrete function map with one self-owned, one
borrowed and one empty slot. -/
theorem c4_witness :
    (prepareForRuntimeShutdown 0 exFM)[1]? = some none
    ∧ (destructorDeletes 0 exFM).count cbSelf = 1 := by
  refine ⟨?_, ?_⟩
  · exact (c4_shutdown_scrub_and_destruction 0 exFM (by decide)).1 1 cbOther rfl (by decide)
  · exact (c4_shutdown_scrub_and_destruction 0 exFM (by decide)).2.2.2.2.2.2 cbSelf (by decide)

/-! ### GC marking: claim C1 -/

/-- Counterexample to claim C1 as stated: a module whose literal
hidden-class cache holds the value 42 yet whose markRoots pass accepts no
pointer and no symbol at all, on either kind of collection pass - the cache
values are not strong roots of markRoots. -/
theorem c1_counterexample :
    exCacheModule.objectLiteralHiddenClasses.filterMap Prod.snd = [⟨42, 3⟩]
    ∧ markRootsAcceptedPtrs exCacheModule = []
    ∧ markRootsAcceptedSymbols exCacheModule true = []
    ∧ markRootsAcceptedSymbols exCacheModule false = [] := by
  refine ⟨rfl, rfl, rfl, rfl⟩

/-- Claim C1 amended: every non-null literal-hidden-class cache value is
accepted during markWeakRoots - as a weak root, on every collection pass
(markWeakRoots takes no markLongLived flag); markRoots itself accepts the
template-map values, not the literal cache. -/
theorem c1_literal_cache_marked_weak (m : RuntimeModule) (k : Nat) (h : HiddenClass)
    (hmem : (k, some h) ∈ m.objectLiteralHiddenClasses) :
    h ∈ markWeakRootsAccepted m := by
  unfold markWeakRootsAccepted
  exact List.mem_append.mpr (Or.inr (List.mem_filterMap.mpr ⟨(k, some h), hmem, rfl⟩))

/-- Witness for the amended C1 at the concrete cached module. -/
theorem c1_witness : (⟨42, 3⟩ : HiddenClass) ∈ markWeakRootsAccepted exCacheModule :=
  c1_literal_cache_marked_weak exCacheModule 7 ⟨42, 3⟩ (by decide)

/-! ### Lazy name lookup: claim C9 -/

/-- Claim C9: getLazyNameString returns true and produces the name exactly
when the interned name's string view is ASCII, and returns false with no
conversion otherwise. -/
theorem c9_lazy_name_ascii (env : RuntimeEnv) (m : RuntimeModule) (s : SymbolID)
    (hmap : m.stringIDMap = [s]) (hfm : m.functionMap.length = 1)
    (hvalid : s.isValid = true) :
    ((env.getStringView s).viewIsASCII = true →
      getLazyNameString env m = (true, some (env.getStringView s).chars))
    ∧ ((env.getStringView s).viewIsASCII = false →
      getLazyNameString env m = (false, none)) := by
  constructor <;> intro hv <;> simp [getLazyNameString, hmap, hv]

/-- Witness for C9 at a concrete environment with an ASCII view. -/
theorem c9_witness : getLazyNameString exEnvOk exLazyModule = (true, some [97]) :=
  (c9_lazy_name_ascii exEnvOk exLazyModule ⟨5⟩ rfl rfl (by decide)).1 rfl

/-! ### Creation: claims C3 and C2 -/

/-- Claim C3: when the post-initialization CJS import fails, create returns
the Exception signal and the new module stays registered with the runtime
(and the domain); when the import succeeds, create returns the usable
binding. -/
theorem c3_create_exception_keeps_registration (rt : RuntimeState) (dom : DomainState)
    (mid : Nat) (env : RuntimeEnv) (persistent : Bool) (p : BCProvider)
    (map : List SymbolID) (fm : List (Option CodeBlock))
    (hinit : initializeWithoutCJSModulesMayAllocate env persistent p [] = .ok (map, fm)) :
    create rt dom mid env persistent (some p) .exception =
      (⟨rt.modules ++ [mid]⟩, ⟨dom.modules ++ [mid]⟩, .exception)
    ∧ mid ∈ (create rt dom mid env persistent (some p) .exception).1.modules
    ∧ create rt dom mid env persistent (some p) .returned =
      (⟨rt.modules ++ [mid]⟩, ⟨dom.modules ++ [mid]⟩, .ok map fm) := by
  refine ⟨?_, ?_, ?_⟩
  · simp [create, initializeMayAllocate, hinit]
  · simp [create, initializeMayAllocate, hinit]
  · simp [create, initializeMayAllocate, hinit]

/-- Witness for C3 at a concrete runtime, domain and provider. -/
theorem c3_witness :
    4 ∈ (create ⟨[]⟩ ⟨[]⟩ 4 exEnvOk false (some pEmptyTable) .exception).1.modules :=
  (c3_create_exception_keeps_registration ⟨[]⟩ ⟨[]⟩ 4 exEnvOk false pEmptyTable
    [⟨5⟩] [] rfl).2.1

/-- Counterexample to claim C2 as stated: with the identifier table in
allocation exhaustion, the identifier-resolution path of binding
construction hits the failure (getSymbolHandle returns the error), yet
create does not return the Exception signal - the failure is consumed
inside the binding by ignoreAllocationFailure, a fatal outcome. -/
theorem c2_counterexample :
    exEnvFail.getSymbolHandle (decodeEntry pIdent.stringStorage (entryAt pIdent 0))
      (pIdent.translations.getD 0 0) = .error ()
    ∧ (create ⟨[]⟩ ⟨[]⟩ 1 exEnvFail false (some pIdent) .returned).2.2 = CreateOutcome.fatal
    ∧ (create ⟨[]⟩ ⟨[]⟩ 1 exEnvFail false (some pIdent) .returned).2.2
        ≠ CreateOutcome.exception := by
  refine ⟨rfl, rfl, by decide⟩

/-- Claim C2 amended: create surfaces the Exception signal exactly when
interning succeeded and the CJS import step failed; an allocation failure
on the identifier-resolution path instead ends in the fatal
ignoreAllocationFailure outcome, never the Exception signal. -/
theorem c2_exception_iff_cjs_failure (rt : RuntimeState) (dom : DomainState) (mid : Nat)
    (env : RuntimeEnv) (persistent : Bool) (p : BCProvider) (cjs : ExecutionStatus) :
    ((create rt dom mid env persistent (some p) cjs).2.2 = CreateOutcome.exception ↔
      (∃ map fm, initializeWithoutCJSModulesMayAllocate env persistent p [] = .ok (map, fm))
        ∧ cjs = .exception)
    ∧ (importStringIDMapMayAllocate env persistent p = .error () →
      (create rt dom mid env persistent (some p) cjs).2.2 = CreateOutcome.fatal) := by
  constructor
  · cases hw : initializeWithoutCJSModulesMayAllocate env persistent p [] with
    | error e =>
      constructor
      · intro hc
        cases cjs <;> simp [create, initializeMayAllocate, hw] at hc
      · rintro ⟨⟨map, fm, hok⟩, -⟩
        exact Except.noConfusion hok
    | ok pr =>
      obtain ⟨map, fm⟩ := pr
      cases cjs
      · simp [create, initializeMayAllocate, hw]
      · simp [create, initializeMayAllocate, hw]
  · intro himp
    have hw : initializeWithoutCJSModulesMayAllocate env persistent p [] = .error () := by
      simp [initializeWithoutCJSModulesMayAllocate, himp]
    cases cjs <;> simp [create, initializeMayAllocate, hw]

/-- Witness for the amended C2 at the concrete exhausted environment. -/
theorem c2_witness :
    (create ⟨[]⟩ ⟨[]⟩ 1 exEnvFail false (some pIdent) .exception).2.2 = CreateOutcome.fatal :=
  (c2_exception_iff_cjs_failure ⟨[]⟩ ⟨[]⟩ 1 exEnvFail false pIdent .exception).2 rfl

/-! ### Characterization of the interning walk -/

theorem mapStringMayAllocate_ok (env : RuntimeEnv) (persistent : Bool) (str : StrRef)
    (stringID hash : Nat) (map : List SymbolID) (id : SymbolID) (map' : List SymbolID)
    (hok : mapStringMayAllocate env persistent str stringID hash map = .ok (id, map')) :
    id = internedValue env persistent str hash ∧ map' = map.set stringID id := by
  cases persistent with
  | true =>
    simp [mapStringMayAllocate] at hok
    obtain ⟨h1, h2⟩ := hok
    simp [internedValue, ← h1, ← h2]
  | false =>
    cases hs : env.getSymbolHandle str hash with
    | error e =>
      rw [mapStringMayAllocate] at hok
      simp [hs] at hok
    | ok v =>
      rw [mapStringMayAllocate] at hok
      simp [hs] at hok
      obtain ⟨h1, h2⟩ := hok
      simp [internedValue, hs, Except.toOption, ← h1, ← h2]

theorem createSymbol_ok (env : RuntimeEnv) (persistent : Bool) (storage : List Nat)
    (sid : Nat) (entry : StringTableEntry) (h : Nat) (map : List SymbolID)
    (id : SymbolID) (map' : List SymbolID)
    (hok : createSymbolFromStringIDMayAllocate env persistent storage sid entry
      (some h) map = .ok (id, map')) :
    id = internedValue env persistent (decodeEntry storage entry) h
      ∧ map' = map.set sid id :=
  mapStringMayAllocate_ok env persistent (decodeEntry storage entry) sid h map id map'
    (by simpa [createSymbolFromStringIDMayAllocate] using hok)

theorem identifierRun_spec (env : RuntimeEnv) (persistent : Bool) (p : BCProvider) :
    ∀ (c strID trnID : Nat) (map : List SymbolID) (log : List Nat)
      (map' : List SymbolID) (log' : List Nat),
      strID + c ≤ map.length →
      identifierRun env persistent p c strID trnID map log = .ok (map', log') →
      map'.length = map.length
      ∧ log' = log ++ (List.range c).map (fun o => strID + o)
      ∧ (∀ j : Nat, (j < strID ∨ strID + c ≤ j) →
          map'.getD j SymbolID.emptySentinel = map.getD j SymbolID.emptySentinel)
      ∧ (∀ o : Nat, o < c →
          map'.getD (strID + o) SymbolID.emptySentinel =
            internedValue env persistent
              (decodeEntry p.stringStorage (entryAt p (strID + o)))
              (p.translations.getD (trnID + o) 0)) := by
  intro c
  induction c with
  | zero =>
    intro strID trnID map log map' log' hlen hok
    rw [identifierRun] at hok
    injection hok with hpair
    injection hpair with h1 h2
    subst h1; subst h2
    refine ⟨rfl, by simp, fun j _ => rfl, fun o ho => absurd ho (by omega)⟩
  | succ n ih =>
    intro strID trnID map log map' log' hlen hok
    rw [identifierRun] at hok
    cases hcs : createSymbolFromStringIDMayAllocate env persistent p.stringStorage strID
        (entryAt p strID) (some (p.translations.getD trnID 0)) map with
    | error e =>
      rw [hcs] at hok
      exact Except.noConfusion hok
    | ok pr =>
      obtain ⟨id, m1⟩ := pr
      rw [hcs] at hok
      obtain ⟨hid, hm1⟩ := createSymbol_ok env persistent p.stringStorage strID
        (entryAt p strID) (p.translations.getD trnID 0) map id m1 hcs
      have hm1len : m1.length = map.length := by rw [hm1]; simp
      have hlen' : (strID + 1) + n ≤ m1.length := by omega
      obtain ⟨ihlen, ihlog, ihout, ihval⟩ :=
        ih (strID + 1) (trnID + 1) m1 (log ++ [strID]) map' log' hlen' hok
      refine ⟨by omega, ?_, ?_, ?_⟩
      · rw [ihlog, List.range_succ_eq_map]
        simp [List.map_map, Function.comp]
        intro a _
        omega
      · intro j hj
        have hj' : j < strID + 1 ∨ (strID + 1) + n ≤ j := by omega
        rw [ihout j hj', hm1, getD_set_of_ne map strID j id _ (by omega)]
      · intro o ho
        cases o with
        | zero =>
          have : map'.getD strID SymbolID.emptySentinel = m1.getD strID SymbolID.emptySentinel :=
            ihout strID (Or.inl (by omega))
          rw [Nat.add_zero, this, hm1, getD_set_self map strID id _ (by omega), hid, Nat.add_zero]
        | succ k =>
          have := ihval k (by omega)
          have he1 : (strID + 1) + k = strID + (k + 1) := by omega
          have he2 : (trnID + 1) + k = trnID + (k + 1) := by omega
          rw [he1, he2] at this
          exact this

theorem predefinedRun_spec (p : BCProvider) :
    ∀ (c strID trnID : Nat) (map : List SymbolID),
      strID + c ≤ map.length →
      (predefinedRun p c strID trnID map).length = map.length
      ∧ (∀ j : Nat, (j < strID ∨ strID + c ≤ j) →
          (predefinedRun p c strID trnID map).getD j SymbolID.emptySentinel
            = map.getD j SymbolID.emptySentinel)
      ∧ (∀ o : Nat, o < c →
          (predefinedRun p c strID trnID map).getD (strID + o) SymbolID.emptySentinel
            = SymbolID.createFromRaw (p.translations.getD (trnID + o) 0)) := by
  intro c
  induction c with
  | zero =>
    intro strID trnID map hlen
    refine ⟨rfl, fun j _ => rfl, fun o ho => absurd ho (by omega)⟩
  | succ n ih =>
    intro strID trnID map hlen
    rw [predefinedRun]
    have hm1len : (mapPredefined strID (p.translations.getD trnID 0) map).length
        = map.length := by simp [mapPredefined]
    obtain ⟨ihlen, ihout, ihval⟩ := ih (strID + 1) (trnID + 1)
      (mapPredefined strID (p.translations.getD trnID 0) map) (by omega)
    refine ⟨by omega, ?_, ?_⟩
    · intro j hj
      rw [ihout j (by omega), mapPredefined,
        getD_set_of_ne map strID j _ _ (by omega)]
    · intro o ho
      cases o with
      | zero =>
        simp only [Nat.add_zero]
        rw [ihout strID (Or.inl (by omega)), mapPredefined,
          getD_set_self map strID _ _ (by omega)]
      | succ k =>
        have := ihval k (by omega)
        have he1 : (strID + 1) + k = strID + (k + 1) := by omega
        have he2 : (trnID + 1) + k = trnID + (k + 1) := by omega
        rw [he1, he2] at this
        exact this

theorem walkKinds_spec (env : RuntimeEnv) (persistent : Bool) (p : BCProvider) :
    ∀ (kinds : List (StringKind × Nat)) (strID trnID : Nat) (map : List SymbolID)
      (log : List Nat) (map' : List SymbolID) (log' : List Nat),
      strID + totalCount kinds ≤ map.length →
      walkKinds env persistent p kinds strID trnID map log = .ok (map', log') →
      map'.length = map.length
      ∧ log' = log ++ identifierPositions kinds strID
      ∧ (∀ j : Nat, (j < strID ∨ strID + totalCount kinds ≤ j) →
          map'.getD j SymbolID.emptySentinel = map.getD j SymbolID.emptySentinel)
      ∧ (∀ o : Nat, o < totalCount kinds →
          map'.getD (strID + o) SymbolID.emptySentinel =
            match kindAt kinds o with
            | .stringKind => map.getD (strID + o) SymbolID.emptySentinel
            | .identifierKind =>
              internedValue env persistent
                (decodeEntry p.stringStorage (entryAt p (strID + o)))
                (p.translations.getD (trnID + trnIndex kinds o) 0)
            | .predefinedKind =>
              SymbolID.createFromRaw (p.translations.getD (trnID + trnIndex kinds o) 0)) := by
  intro kinds
  induction kinds with
  | nil =>
    intro strID trnID map log map' log' hlen hok
    rw [walkKinds] at hok
    injection hok with hpair
    injection hpair with h1 h2
    subst h1; subst h2
    exact ⟨rfl, by simp [identifierPositions], fun j _ => rfl,
      fun o ho => by simp [totalCount] at ho⟩
  | cons e rest ih =>
    obtain ⟨k, c⟩ := e
    intro strID trnID map log map' log' hlen hok
    have htot : totalCount ((k, c) :: rest) = c + totalCount rest := rfl
    cases k with
    | stringKind =>
      rw [walkKinds] at hok
      obtain ⟨ihlen, ihlog, ihout, ihval⟩ :=
        ih (strID + c) trnID map log map' log' (by rw [htot] at hlen; omega) hok
      refine ⟨ihlen, ?_, ?_, ?_⟩
      · rw [ihlog]
        simp [identifierPositions]
      · intro j hj
        exact ihout j (by rw [htot] at hj; omega)
      · intro o ho
        rw [htot] at ho
        by_cases hoc : o < c
        · have hk : kindAt ((StringKind.stringKind, c) :: rest) o = .stringKind := by
            simp [kindAt, hoc]
          rw [hk]
          exact ihout (strID + o) (Or.inl (by omega))
        · have hk : kindAt ((StringKind.stringKind, c) :: rest) o = kindAt rest (o - c) := by
            simp [kindAt, hoc]
          have htr : trnIndex ((StringKind.stringKind, c) :: rest) o
              = trnIndex rest (o - c) := by
            simp [trnIndex, hoc]
          have hval := ihval (o - c) (by omega)
          have he : (strID + c) + (o - c) = strID + o := by omega
          rw [he] at hval
          rw [hk, htr]
          exact hval
    | identifierKind =>
      rw [walkKinds] at hok
      cases hir : identifierRun env persistent p c strID trnID map log with
      | error e =>
        rw [hir] at hok
        exact Except.noConfusion hok
      | ok pr =>
        obtain ⟨m1, log1⟩ := pr
        rw [hir] at hok
        obtain ⟨irlen, irlog, irout, irval⟩ :=
          identifierRun_spec env persistent p c strID trnID map log m1 log1
            (by rw [htot] at hlen; omega) hir
        obtain ⟨ihlen, ihlog, ihout, ihval⟩ :=
          ih (strID + c) (trnID + c) m1 log1 map' log'
            (by rw [htot] at hlen; omega) hok
        refine ⟨by omega, ?_, ?_, ?_⟩
        · rw [ihlog, irlog]
          simp [identifierPositions]
        · intro j hj
          rw [htot] at hj
          rw [ihout j (by omega), irout j (by omega)]
        · intro o ho
          rw [htot] at ho
          by_cases hoc : o < c
          · have hk : kindAt ((StringKind.identifierKind, c) :: rest) o
                = .identifierKind := by simp [kindAt, hoc]
            have htr : trnIndex ((StringKind.identifierKind, c) :: rest) o = o := by
              simp [trnIndex, hoc]
            rw [hk, htr]
            have hout := ihout (strID + o) (Or.inl (by omega))
            rw [hout]
            exact irval o hoc
          · have hk : kindAt ((StringKind.identifierKind, c) :: rest) o
                = kindAt rest (o - c) := by simp [kindAt, hoc]
            have htr : trnIndex ((StringKind.identifierKind, c) :: rest) o
                = c + trnIndex rest (o - c) := by simp [trnIndex, hoc]
            have hval := ihval (o - c) (by omega)
            have he : (strID + c) + (o - c) = strID + o := by omega
            rw [he] at hval
            rw [hk, htr, hval]
            cases hrest : kindAt rest (o - c) with
            | stringKind =>
              simp only
              exact irout (strID + o) (Or.inr (by omega))
            | identifierKind =>
              simp only
              have he2 : (trnID + c) + trnIndex rest (o - c)
                  = trnID + (c + trnIndex rest (o - c)) := by omega
              rw [he2]
            | predefinedKind =>
              simp only
              have he2 : (trnID + c) + trnIndex rest (o - c)
                  = trnID + (c + trnIndex rest (o - c)) := by omega
              rw [he2]
    | predefinedKind =>
      rw [walkKinds] at hok
      obtain ⟨prlen, prout, prval⟩ :=
        predefinedRun_spec p c strID trnID map (by rw [htot] at hlen; omega)
      obtain ⟨ihlen, ihlog, ihout, ihval⟩ :=
        ih (strID + c) (trnID + c) (predefinedRun p c strID trnID map) log map' log'
          (by rw [prlen]; rw [htot] at hlen; omega) hok
      refine ⟨by omega, ?_, ?_, ?_⟩
      · rw [ihlog]
        simp [identifierPositions]
      · intro j hj
        rw [htot] at hj
        rw [ihout j (by omega), prout j (by omega)]
      · intro o ho
        rw [htot] at ho
        by_cases hoc : o < c
        · have hk : kindAt ((StringKind.predefinedKind, c) :: rest) o
              = .predefinedKind := by simp [kindAt, hoc]
          have htr : trnIndex ((StringKind.predefinedKind, c) :: rest) o = o := by
            simp [trnIndex, hoc]
          rw [hk, htr]
          have hout := ihout (strID + o) (Or.inl (by omega))
          rw [hout]
          exact prval o hoc
        · have hk : kindAt ((StringKind.predefinedKind, c) :: rest) o
              = kindAt rest (o - c) := by simp [kindAt, hoc]
          have htr : trnIndex ((StringKind.predefinedKind, c) :: rest) o
              = c + trnIndex rest (o - c) := by simp [trnIndex, hoc]
          have hval := ihval (o - c) (by omega)
          have he : (strID + c) + (o - c) = strID + o := by omega
          rw [he] at hval
          rw [hk, htr, hval]
          cases hrest : kindAt rest (o - c) with
          | stringKind =>
            simp only
            exact prout (strID + o) (Or.inr (by omega))
          | identifierKind =>
            simp only
            have he2 : (trnID + c) + trnIndex rest (o - c)
                = trnID + (c + trnIndex rest (o - c)) := by omega
            rw [he2]
          | predefinedKind =>
            simp only
            have he2 : (trnID + c) + trnIndex rest (o - c)
                = trnID + (c + trnIndex rest (o - c)) := by omega
            rw [he2]

theorem mem_identifierPositions :
    ∀ (kinds : List (StringKind × Nat)) (strID i : Nat),
      i ∈ identifierPositions kinds strID ↔
        ∃ o, o < totalCount kinds ∧ i = strID + o ∧ kindAt kinds o = .identifierKind := by
  intro kinds
  induction kinds with
  | nil =>
    intro strID i
    simp [identifierPositions, totalCount]
  | cons e rest ih =>
    obtain ⟨k, c⟩ := e
    intro strID i
    rw [identifierPositions, List.mem_append]
    constructor
    · rintro (hl | hr)
      · by_cases hk : k = StringKind.identifierKind
        · rw [if_pos hk] at hl
          simp only [List.mem_map, List.mem_range] at hl
          obtain ⟨o, ho, hio⟩ := hl
          refine ⟨o, by simp [totalCount]; omega, hio.symm, ?_⟩
          simp [kindAt, ho, hk]
        · rw [if_neg hk] at hl
          simp at hl
      · obtain ⟨o, ho, hio, hko⟩ := (ih (strID + c) i).mp hr
        refine ⟨c + o, by simp [totalCount]; omega, by omega, ?_⟩
        have hnl : ¬(c + o < c) := by omega
        have hsub : c + o - c = o := by omega
        simp [kindAt, hnl, hsub, hko]
    · rintro ⟨o, ho, hio, hko⟩
      by_cases hoc : o < c
      · left
        have hk : k = StringKind.identifierKind := by simpa [kindAt, hoc] using hko
        rw [if_pos hk]
        simp only [List.mem_map, List.mem_range]
        exact ⟨o, hoc, hio.symm⟩
      · right
        apply (ih (strID + c) i).mpr
        refine ⟨o - c, ?_, by omega, ?_⟩
        · simp [totalCount] at ho
          omega
        · simpa [kindAt, hoc] using hko

theorem walkKinds_total_zero (env : RuntimeEnv) (persistent : Bool) (p : BCProvider) :
    ∀ (kinds : List (StringKind × Nat)) (strID trnID : Nat) (map : List SymbolID)
      (log : List Nat), totalCount kinds = 0 →
      walkKinds env persistent p kinds strID trnID map log = .ok (map, log) := by
  intro kinds
  induction kinds with
  | nil =>
    intro strID trnID map log h
    rw [walkKinds]
  | cons e rest ih =>
    obtain ⟨k, c⟩ := e
    intro strID trnID map log h
    have hc : c = 0 := by simp [totalCount] at h; omega
    have hr : totalCount rest = 0 := by simp [totalCount] at h; omega
    subst hc
    cases k with
    | stringKind =>
      rw [walkKinds]
      exact ih _ _ _ _ hr
    | identifierKind =>
      simp only [walkKinds, identifierRun]
      exact ih _ _ _ _ hr
    | predefinedKind =>
      simp only [walkKinds, predefinedRun]
      exact ih _ _ _ _ hr

theorem importStringIDMap_ok_nonempty (env : RuntimeEnv) (persistent : Bool)
    (p : BCProvider) (map : List SymbolID) (log : List Nat)
    (hsum : totalCount p.kinds = p.stringCount) (hne : p.stringCount ≠ 0)
    (hok : importStringIDMapMayAllocate env persistent p = .ok (map, log)) :
    map.length = p.stringCount
    ∧ log = identifierPositions p.kinds 0
    ∧ (∀ i : Nat, i < p.stringCount →
        map.getD i SymbolID.emptySentinel
          = expectedSymbol env persistent p i SymbolID.emptySentinel) := by
  rw [importStringIDMapMayAllocate] at hok
  cases hw : walkKinds env persistent p p.kinds 0 0
      (List.replicate p.stringCount SymbolID.emptySentinel) [] with
  | error e =>
    rw [hw] at hok
    exact Except.noConfusion hok
  | ok pr =>
    obtain ⟨m, l⟩ := pr
    rw [hw] at hok
    simp only [hne, if_false] at hok
    injection hok with hpair
    injection hpair with h1 h2
    obtain ⟨wlen, wlog, _, wval⟩ := walkKinds_spec env persistent p p.kinds 0 0
      (List.replicate p.stringCount SymbolID.emptySentinel) [] m l (by simp [hsum]) hw
    subst h1; subst h2
    refine ⟨by simpa using wlen, by simpa using wlog, ?_⟩
    intro i hi
    have hv := wval i (by rw [hsum]; exact hi)
    simp only [Nat.zero_add] at hv
    rw [hv, expectedSymbol]
    cases hk : kindAt p.kinds i with
    | stringKind =>
      simp only
      exact getD_replicate p.stringCount i SymbolID.emptySentinel SymbolID.emptySentinel hi
    | identifierKind => simp only
    | predefinedKind => simp only

/-- Claim C5: for every string-table entry, interning dispatches by the
run-length kind table - identifier-run entries are interned through the
symbol table with the entry's precomputed translation hash (and the
interning primitive falls back to hashing the content only when no
precomputed hash is supplied), predefined-run entries map directly to the
SymbolID built from the raw translation value, and plain-string-run entries
keep the prefill sentinel; the symbol table is consulted exactly for the
identifier-run entries. -/
theorem c5_interning_dispatch (env : RuntimeEnv) (persistent : Bool) (p : BCProvider)
    (map : List SymbolID) (log : List Nat)
    (hsum : totalCount p.kinds = p.stringCount) (hne : p.stringCount ≠ 0)
    (hok : importStringIDMapMayAllocate env persistent p = .ok (map, log)) :
    (∀ i : Nat, i < p.stringCount →
      map.getD i SymbolID.emptySentinel = expectedSymbol env persistent p i SymbolID.emptySentinel
      ∧ (i ∈ log ↔ kindAt p.kinds i = .identifierKind))
    ∧ (∀ (sid : Nat) (entry : StringTableEntry) (mhash : Option Nat) (m : List SymbolID),
        createSymbolFromStringIDMayAllocate env persistent p.stringStorage sid entry mhash m
          = mapStringMayAllocate env persistent (decodeEntry p.stringStorage entry) sid
              (mhash.getD (env.hashString (decodeEntry p.stringStorage entry))) m) := by
  obtain ⟨hlen, hlog, hval⟩ :=
    importStringIDMap_ok_nonempty env persistent p map log hsum hne hok
  constructor
  · intro i hi
    refine ⟨hval i hi, ?_⟩
    rw [hlog, mem_identifierPositions]
    constructor
    · rintro ⟨o, ho, hio, hk⟩
      have hoi : i = o := by omega
      rw [hoi]
      exact hk
    · intro hk
      exact ⟨i, by rw [hsum]; exact hi, by omega, hk⟩
  · intro sid entry mhash m
    cases mhash with
    | none => rfl
    | some h => rfl

/-- Witness for C5: the mixed provider leaves the interned handle at the
identifier entry, the raw predefined id at the predefined entry, and the
sentinel at the plain string entry, consulting the table only for entry 0. -/
theorem c5_witness :
    ([⟨5⟩, ⟨77⟩, SymbolID.emptySentinel] : List SymbolID).getD 1 SymbolID.emptySentinel
      = expectedSymbol exEnvOk false pMix 1 SymbolID.emptySentinel :=
  ((c5_interning_dispatch exEnvOk false pMix [⟨5⟩, ⟨77⟩, SymbolID.emptySentinel] [0]
    rfl (by decide) rfl).1 1 (by decide)).1

/-- Claim C10: after interning a non-empty table, every index inside a
plain-string run still holds the invalid prefill sentinel, and the
strong-root marking pass never accepts that sentinel (it filters on
validity). -/
theorem c10_string_runs_sentinel (env : RuntimeEnv) (persistent : Bool) (p : BCProvider)
    (map : List SymbolID) (log : List Nat) (i : Nat)
    (hsum : totalCount p.kinds = p.stringCount) (hne : p.stringCount ≠ 0)
    (hok : importStringIDMapMayAllocate env persistent p = .ok (map, log))
    (hi : i < p.stringCount) (hkind : kindAt p.kinds i = .stringKind) :
    map.getD i SymbolID.emptySentinel = SymbolID.emptySentinel
    ∧ SymbolID.emptySentinel.isValid = false
    ∧ (∀ (m : RuntimeModule) (mll : Bool),
        SymbolID.emptySentinel ∉ markRootsAcceptedSymbols m mll) := by
  obtain ⟨hlen, hlog, hval⟩ :=
    importStringIDMap_ok_nonempty env persistent p map log hsum hne hok
  refine ⟨?_, by simp [SymbolID.isValid], ?_⟩
  · rw [hval i hi]
    simp [expectedSymbol, hkind]
  · intro m mll hmem
    cases mll with
    | false => simp [markRootsAcceptedSymbols] at hmem
    | true =>
      rw [markRootsAcceptedSymbols, if_pos rfl] at hmem
      have hv := (List.mem_filter.mp hmem).2
      simp [SymbolID.isValid] at hv

/-- Witness for C10: entry 2 of the mixed provider lies in a string run and
still holds the sentinel after interning. -/
theorem c10_witness :
    ([⟨5⟩, ⟨77⟩, SymbolID.emptySentinel] : List SymbolID).getD 2 SymbolID.emptySentinel
      = SymbolID.emptySentinel :=
  (c10_string_runs_sentinel exEnvOk false pMix [⟨5⟩, ⟨77⟩, SymbolID.emptySentinel] [0] 2
    rfl (by decide) rfl (by decide) rfl).1

/-- Claim C8: with an empty string table, importStringIDMapMayAllocate
synthesizes exactly one empty-string entry interned at index 0; with a
non-empty table nothing is synthesized (the map keeps one symbol per
string-table entry). -/
theorem c8_empty_table_synthesis (env : RuntimeEnv) (persistent : Bool) (p : BCProvider)
    (map : List SymbolID) (log : List Nat)
    (hsum : totalCount p.kinds = p.stringCount)
    (hok : importStringIDMapMayAllocate env persistent p = .ok (map, log)) :
    (p.stringCount = 0 →
      map = [internedValue env persistent (StrRef.ascii [])
        (env.hashString (StrRef.ascii []))])
    ∧ (p.stringCount ≠ 0 → map.length = p.stringCount) := by
  constructor
  · intro hzero
    rw [importStringIDMapMayAllocate] at hok
    rw [walkKinds_total_zero env persistent p p.kinds 0 0 _ [] (by rw [hsum, hzero])] at hok
    simp only [hzero, if_true] at hok
    cases hms : mapStringMayAllocate env persistent (StrRef.ascii []) 0
        (env.hashString (StrRef.ascii []))
        (List.replicate 0 SymbolID.emptySentinel ++ [SymbolID.emptySentinel]) with
    | error e =>
      rw [hms] at hok
      exact Except.noConfusion hok
    | ok pr =>
      obtain ⟨id, m2⟩ := pr
      rw [hms] at hok
      injection hok with hpair
      injection hpair with h1 h2
      obtain ⟨hid, hm2⟩ := mapStringMayAllocate_ok env persistent (StrRef.ascii []) 0
        (env.hashString (StrRef.ascii [])) _ id m2 hms
      rw [← h1, hm2, hid]
      simp
  · intro hne
    exact (importStringIDMap_ok_nonempty env persistent p map log hsum hne hok).1

/-- Witness for C8 at the empty-table provider: the resulting map is the
single interned empty string. -/
theorem c8_witness :
    ([⟨5⟩] : List SymbolID) = [internedValue exEnvOk false (StrRef.ascii [])
      (exEnvOk.hashString (StrRef.ascii []))] :=
  (c8_empty_table_synthesis exEnvOk false pEmptyTable [⟨5⟩] [0] rfl rfl).1 rfl

/-! ### Lazy retarget lemmas and claim C6 -/

theorem getD_replicate_none {α : Type} : ∀ (n j : Nat),
    (List.replicate n (none : Option α)).getD j none = none := by
  intro n
  induction n with
  | zero => intro j; cases j <;> rfl
  | succ n ih =>
    intro j
    rw [List.replicate_succ]
    cases j with
    | zero => rfl
    | succ k => simpa using ih k

theorem filterMap_id_replicate_none {α : Type} : ∀ n : Nat,
    (List.replicate n (none : Option α)).filterMap id = [] := by
  intro n
  induction n with
  | zero => rfl
  | succ n ih => rw [List.replicate_succ]; simpa using ih

theorem replicate_set_filterMap {α : Type} : ∀ (n g : Nat) (v : α), g < n →
    ((List.replicate n (none : Option α)).set g (some v)).filterMap id = [v] := by
  intro n
  induction n with
  | zero => intro g v h; omega
  | succ n ih =>
    intro g v h
    rw [List.replicate_succ]
    cases g with
    | zero => simp [filterMap_id_replicate_none]
    | succ k => simpa using ih k v (by omega)

theorem replicate_set_getD {α : Type} (n g j : Nat) (v : α) (h : g < n) :
    ((List.replicate n (none : Option α)).set g (some v)).getD j none
      = if j = g then some v else none := by
  by_cases hj : j = g
  · subst hj
    rw [if_pos rfl]
    exact getD_set_self _ j (some v) none (by simpa using h)
  · rw [if_neg hj, getD_set_of_ne _ g j _ _ (fun he => hj he.symm)]
    exact getD_replicate_none n j

/-- Claim C6: a lazy child, initialized from its freshly compiled provider
after starting with its single record at slot 0, moves that record to the
slot of the provider's global function index and nulls slot 0, unless that
index is already 0 in which case the map is left as built; afterwards its
function map holds exactly one non-null entry, at the resolved global
index. -/
theorem c6_lazy_retarget (env : RuntimeEnv) (persistent : Bool) (p : BCProvider)
    (cb : CodeBlock) (map : List SymbolID) (fm' : List (Option CodeBlock))
    (hfc : 1 ≤ p.functionCount) (hg : p.globalFunctionIndex < p.functionCount)
    (hok : initializeLazyMayAllocate env persistent p [some cb] = .ok (map, fm')) :
    fm' = (List.replicate p.functionCount none).set p.globalFunctionIndex (some cb)
    ∧ (p.globalFunctionIndex = 0 → fm' = initializeFunctionMap p [some cb])
    ∧ fm'.getD p.globalFunctionIndex none = some cb
    ∧ (∀ j : Nat, j ≠ p.globalFunctionIndex → fm'.getD j none = none)
    ∧ fm'.filterMap id = [cb] := by
  obtain ⟨k, hk⟩ : ∃ k, p.functionCount = k + 1 := ⟨p.functionCount - 1, by omega⟩
  have hfm1 : initializeFunctionMap p [some cb]
      = some cb :: List.replicate (p.functionCount - 1) none := by
    rw [initializeFunctionMap]
    simp
  rw [initializeLazyMayAllocate] at hok
  cases hw : initializeWithoutCJSModulesMayAllocate env persistent p [some cb] with
  | error e =>
    rw [hw] at hok
    exact Except.noConfusion hok
  | ok pr =>
    obtain ⟨m0, fm1⟩ := pr
    rw [hw] at hok
    dsimp only at hok
    have hfm1' : fm1 = some cb :: List.replicate (p.functionCount - 1) none := by
      rw [initializeWithoutCJSModulesMayAllocate] at hw
      cases hi : importStringIDMapMayAllocate env persistent p with
      | error e =>
        rw [hi] at hw
        exact Except.noConfusion hw
      | ok pr2 =>
        obtain ⟨mm, ll⟩ := pr2
        rw [hi] at hw
        injection hw with hpair
        injection hpair with h1 h2
        rw [← h2, hfm1]
    have hcf : fm' = (List.replicate p.functionCount none).set p.globalFunctionIndex (some cb)
        ∧ (p.globalFunctionIndex = 0 → fm' = initializeFunctionMap p [some cb]) := by
      by_cases hg0 : p.globalFunctionIndex = 0
      · rw [if_pos hg0] at hok
        injection hok with hpair
        injection hpair with h1 h2
        refine ⟨?_, fun _ => by rw [← h2, hfm1', hfm1]⟩
        rw [← h2, hfm1', hg0, hk, List.replicate_succ]
        simp
      · rw [if_neg hg0] at hok
        injection hok with hpair
        injection hpair with h1 h2
        refine ⟨?_, fun h0 => absurd h0 hg0⟩
        obtain ⟨g, hgs⟩ : ∃ g, p.globalFunctionIndex = g + 1 :=
          ⟨p.globalFunctionIndex - 1, by omega⟩
        rw [← h2, hfm1', hgs, hk, List.replicate_succ]
        rfl
    refine ⟨hcf.1, hcf.2, ?_, ?_, ?_⟩
    · rw [hcf.1, replicate_set_getD _ _ _ _ hg, if_pos rfl]
    · intro j hj
      rw [hcf.1, replicate_set_getD _ _ _ _ hg, if_neg hj]
    · rw [hcf.1]
      exact replicate_set_filterMap _ _ _ hg

/-- Witness for C6: with global function index 2 and three functions, the
child's record ends up alone at slot 2. -/
theorem c6_witness :
    ([none, none, some cbEx] : List (Option CodeBlock)).getD 2 none = some cbEx :=
  (c6_lazy_retarget exEnvOk false pLazy cbEx [SymbolID.emptySentinel] [none, none, some cbEx]
    (by decide) (by decide) rfl).2.2.1

end HermesRM
